import Mathlib

/-!
Verification of `ConditionalLearnerForFiniteClass`
(`src/models/conditional_classification_finite_class.py`).

The learner's own logic — the constructor parameters (`__init__`,
lines 29–42), the per-cluster loop with its candidate tables
(`forward`, lines 64–115) and the conditional-error evaluation with
stable arg-min (`evaluate`, lines 117–142) — is embedded directly.
Collaborators that live outside this file's source (`Classify`,
`TransformedDataset`, `SelectorPerceptron`, `torch.utils.data.random_split`)
are abstracted as parameters or modelled from their documented contracts.
Tensors of rationals stand in for float tensors; float `NaN` arising from
0/0 is embedded as the explicit zero-denominator branch that the source's
NaN-replacement line realizes.
-/

namespace CondLearn

/-- An evaluation sample as yielded by the `TransformedDataset`
collaborator (`eval_dataset[:]` on line 123 produces labels and
features): a binary label and a dense feature vector. -/
structure Sample where
  label : Bool
  features : List ℚ
deriving DecidableEq

/-- One row of a `torch.sparse.FloatTensor` cluster: a list of
(index, value) entries. -/
structure SparseVec where
  entries : List (Nat × ℚ)
deriving DecidableEq

/-- Dense form of a sparse vector of dimension `dim` (`to_dense()` on
line 106): position `i` holds the sum of the entries with index `i`. -/
def SparseVec.toDense (dim : Nat) (v : SparseVec) : List ℚ :=
  (List.range dim).map fun i =>
    (v.entries.filterMap fun e => if e.1 = i then some e.2 else none).sum

/-- Constructor state of `ConditionalLearnerForFiniteClass.__init__`
(lines 10–34). -/
structure Config where
  dim_sample : Nat
  num_iter : Nat
  sample_size_psgd : Nat
  lr_coeff : ℚ
  batch_size : Nat
deriving DecidableEq

/-- Step size computed in the constructor (lines 36–40):
`lr_beta = lr_coeff * sqrt(1 / (num_iter * dim_sample))`. -/
noncomputable def lr_beta (cfg : Config) : ℝ :=
  (cfg.lr_coeff : ℝ) * Real.sqrt (1 / ((cfg.num_iter : ℝ) * (cfg.dim_sample : ℝ)))

/-- The fixed initial weight vector of lines 41–42:
`torch.zeros(dim_sample)` with index 0 then set to 1. -/
def init_weight (dim : Nat) : List ℚ :=
  (List.replicate dim 0).set 0 1

/-- The initial weight handed to the selector trainer for cluster `i`
(line 101: `self.init_weight.to(data.device)` inside the loop body —
the same stored vector at every iteration). -/
def initWeightUsed (cfg : Config) (_i : Nat) : List ℚ :=
  init_weight cfg.dim_sample

/-- Number of evaluation samples claimed by `selector`
(`selections.sum(dim=-1)` on line 136), with the `Classify` collaborator
kept abstract as `classify`. -/
def selectionCount (classify : List ℚ → List ℚ → Bool) (evalView : List Sample)
    (selector : List ℚ) : Nat :=
  (evalView.filter fun s => classify selector s.features).length

/-- Conditional error rate of one (classifier, selector) row
(lines 125–138): the misclassified-and-selected count over the selected
count.  In the source the sums are float tensors, so a zero selected
count makes the quotient `0/0 = NaN`, which line 138 replaces by 1; the
numerator never exceeds the denominator, so NaN arises exactly when the
selected count is 0, embedded here as the zero-denominator branch. -/
def conditional_error_rate (classify : List ℚ → List ℚ → Bool) (evalView : List Sample)
    (classifier selector : List ℚ) : ℚ :=
  let errSel := (evalView.filter fun s =>
    (classify classifier s.features != s.label) && classify selector s.features).length
  let sel := selectionCount classify evalView selector
  if sel = 0 then 1 else (errSel : ℚ) / (sel : ℚ)

/-- Index of the first minimum of a list of rates: the semantics of
`torch.min(conditional_error_rate, dim=0)` on line 140, whose index
output is the first minimal position. -/
def argminIdx : List ℚ → Nat
  | [] => 0
  | [_] => 0
  | x :: y :: ys =>
    if x ≤ (y :: ys).getD (argminIdx (y :: ys)) 0 then 0 else argminIdx (y :: ys) + 1

/-- `ConditionalLearnerForFiniteClass.evaluate` (lines 117–142): compute
every row's conditional error rate and return the row attaining the first
minimum.  `torch.min` over an empty rate vector raises a runtime error,
embedded as `none`. -/
def evaluate (classify : List ℚ → List ℚ → Bool) (evalView : List Sample)
    (classifiers selectors : List (List ℚ)) : Option (List ℚ × List ℚ) :=
  let rates := List.zipWith (conditional_error_rate classify evalView) classifiers selectors
  if rates = [] then none
  else
    let i := argminIdx rates
    some (classifiers.getD i [], selectors.getD i [])

/-- Modelled from the spec: the `torch.utils.data.random_split`
collaborator ("given a dataset-like object and two split sizes, returns
two disjoint views whose sizes match the requested counts").  `view` is
the dataset in the randomly permuted order — the permutation is the
external randomness — and sizes not summing to the dataset length raise,
embedded as `none`. -/
def random_split (view : List Sample) (n1 n2 : Nat) :
    Option (List Sample × List Sample) :=
  if n1 + n2 = view.length then some (view.take n1, view.drop n1) else none

/-- The train/validation split performed by `forward` on a cluster view
(lines 84–87), with requested lengths `sample_size_psgd` and
`len(dataset) - sample_size_psgd`. -/
def clusterSplit (cfg : Config) (view : List Sample) :
    Option (List Sample × List Sample) :=
  random_split view cfg.sample_size_psgd (view.length - cfg.sample_size_psgd)

/-- Dense form of a cluster of sparse classifier rows
(`classifiers.to_dense()` on line 106). -/
def denseCluster (dim : Nat) (c : List SparseVec) : List (List ℚ) :=
  c.map (SparseVec.toDense dim)

section Forward

variable (cfg : Config)
variable (classify : List ℚ → List ℚ → Bool)
variable (train : Nat → List SparseVec → List Sample × List Sample → List ℚ → List (List ℚ))
variable (clusterView : Nat → List SparseVec → List Sample)
variable (evalView : List Sample)
variable (clusters : List (List SparseVec))

/-- The best (classifier, selector) pair of cluster `i` as computed in
the loop body of `forward` (lines 83–108): split the cluster view,
run the selector trainer — the `SelectorPerceptron` collaborator,
abstracted as `train` — on the splits and the initial weight, then
evaluate the cluster's dense classifiers against the trained selectors. -/
def clusterBest (i : Nat) : Option (List ℚ × List ℚ) :=
  (clusterSplit cfg (clusterView i (clusters.getD i []))).bind fun split =>
    evaluate classify evalView (denseCluster cfg.dim_sample (clusters.getD i []))
      (train i (clusters.getD i []) split (initWeightUsed cfg i))

/-- One iteration of `forward`'s cluster loop (lines 76–108): compute
cluster `i`'s best pair and write it into row `i` of the candidate
classifier and selector tables (line 104). -/
def clusterStep (i : Nat) (tbl : List (List ℚ) × List (List ℚ)) :
    Option (List (List ℚ) × List (List ℚ)) :=
  (clusterBest cfg classify train clusterView evalView clusters i).map fun bp =>
    (tbl.1.set i bp.1, tbl.2.set i bp.2)

/-- The zero-initialized candidate tables of lines 66–71:
`[num_cluster × dim_sample]` zeros for classifiers and selectors. -/
def initTable : List (List ℚ) × List (List ℚ) :=
  (List.replicate clusters.length (List.replicate cfg.dim_sample 0),
   List.replicate clusters.length (List.replicate cfg.dim_sample 0))

/-- The main cluster loop of `forward` (lines 76–108): fold
`clusterStep` over the clusters in input order, starting from the
zero tables. -/
def mainPass : Option (List (List ℚ) × List (List ℚ)) :=
  (List.range clusters.length).foldl
    (fun acc i => acc.bind (clusterStep cfg classify train clusterView evalView clusters i))
    (some (initTable cfg clusters))

/-- `ConditionalLearnerForFiniteClass.forward` (lines 44–115): run the
main cluster loop, then evaluate once over the whole candidate table
(lines 110–115) and return that result. -/
def forward : Option (List ℚ × List ℚ) :=
  (mainPass cfg classify train clusterView evalView clusters).bind fun tbl =>
    evaluate classify evalView tbl.1 tbl.2

end Forward

/-! ### Concrete instances (used to exhibit satisfiable hypotheses) -/

/-- A concrete configuration: dimension 1, one iteration, training split
size 1, the default learning-rate coefficient and batch size. -/
def exCfg : Config := ⟨1, 1, 1, 1/2, 32⟩

/-- A concrete evaluation view holding one positively labelled sample. -/
def exView : List Sample := [⟨true, [1]⟩]

/-- A concrete cluster holding one sparse classifier row with weight 1 at
index 0. -/
def exCluster : List SparseVec := [⟨[(0, 1)]⟩]

/-- A classification collaborator that claims every sample. -/
def exClassifyTrue : List ℚ → List ℚ → Bool := fun _ _ => true

/-- A classification collaborator that claims no sample. -/
def exClassifyFalse : List ℚ → List ℚ → Bool := fun _ _ => false

/-- A selector trainer returning one constant unit row per classifier. -/
def exTrain : Nat → List SparseVec → List Sample × List Sample → List ℚ → List (List ℚ) :=
  fun _ c _ _ => c.map fun _ => [1]

/-- A cluster-view collaborator returning a fixed one-sample view. -/
def exClusterView : Nat → List SparseVec → List Sample := fun _ _ => [⟨true, [1]⟩]

/-- A concrete one-row weight matrix. -/
def exRows : List (List ℚ) := [[1]]

/-! ### List helper lemmas -/

theorem getD_mem {α : Type _} (l : List α) (i : Nat) (d : α) (h : i < l.length) :
    l.getD i d ∈ l := by
  rw [List.getD_eq_getElem l d h]
  exact List.getElem_mem h

theorem getD_set_self {α : Type _} (l : List α) (i : Nat) (a d : α) (h : i < l.length) :
    (l.set i a).getD i d = a := by
  rw [List.getD_eq_getElem _ d (by simpa using h)]
  exact List.getElem_set_self (by simpa using h)

theorem getD_set_of_ne {α : Type _} (l : List α) (i j : Nat) (a d : α) (h : j ≠ i) :
    (l.set i a).getD j d = l.getD j d := by
  by_cases hj : j < l.length
  · rw [List.getD_eq_getElem _ d (by simpa using hj), List.getD_eq_getElem _ d hj]
    exact List.getElem_set_ne (Ne.symm h) (by simpa using hj)
  · rw [List.getD_eq_getElem?_getD, List.getD_eq_getElem?_getD,
      List.getElem?_eq_none (by simpa using Nat.le_of_not_lt hj),
      List.getElem?_eq_none (by exact Nat.le_of_not_lt hj)]

theorem getD_map {α β : Type _} (f : α → β) (l : List α) (i : Nat) (d : α) (e : β)
    (h : i < l.length) : (l.map f).getD i e = f (l.getD i d) := by
  rw [List.getD_eq_getElem _ e (by simpa using h), List.getD_eq_getElem _ d h]
  exact List.getElem_map f

/-! ### Arg-min lemmas: `argminIdx` returns the first position of the
minimum, matching the documented tie-breaking of `torch.min`. -/

theorem argminIdx_lt_length : ∀ (l : List ℚ), l ≠ [] → argminIdx l < l.length
  | [_], _ => Nat.zero_lt_one
  | x :: y :: ys, _ => by
    have ih := argminIdx_lt_length (y :: ys) (List.cons_ne_nil y ys)
    by_cases h : x ≤ (y :: ys).getD (argminIdx (y :: ys)) 0
    · simp only [argminIdx, if_pos h, List.length_cons]
      omega
    · simp only [argminIdx, if_neg h, List.length_cons]
      simp only [List.length_cons] at ih
      omega

theorem argminIdx_le : ∀ (l : List ℚ) (j : Nat), j < l.length →
    l.getD (argminIdx l) 0 ≤ l.getD j 0
  | [x], j, hj => by
    have hj0 : j = 0 := by simp at hj; omega
    subst hj0
    simp [argminIdx]
  | x :: y :: ys, j, hj => by
    by_cases h : x ≤ (y :: ys).getD (argminIdx (y :: ys)) 0
    · simp only [argminIdx, if_pos h, List.getD_cons_zero]
      cases j with
      | zero => simp
      | succ k =>
        have hk : k < (y :: ys).length := by
          simp only [List.length_cons] at hj ⊢; omega
        rw [List.getD_cons_succ]
        exact le_trans h (argminIdx_le (y :: ys) k hk)
    · simp only [argminIdx, if_neg h, List.getD_cons_succ]
      cases j with
      | zero =>
        rw [List.getD_cons_zero]
        exact le_of_lt (lt_of_not_le h)
      | succ k =>
        have hk : k < (y :: ys).length := by
          simp only [List.length_cons] at hj ⊢; omega
        rw [List.getD_cons_succ]
        exact argminIdx_le (y :: ys) k hk

theorem argminIdx_first : ∀ (l : List ℚ) (j : Nat), j < argminIdx l →
    l.getD (argminIdx l) 0 < l.getD j 0
  | [], j, hj => by simp [argminIdx] at hj
  | [x], j, hj => by simp [argminIdx] at hj
  | x :: y :: ys, j, hj => by
    by_cases h : x ≤ (y :: ys).getD (argminIdx (y :: ys)) 0
    · simp only [argminIdx, if_pos h] at hj
      omega
    · simp only [argminIdx, if_neg h] at hj ⊢
      simp only [List.getD_cons_succ]
      cases j with
      | zero =>
        rw [List.getD_cons_zero]
        exact lt_of_not_le h
      | succ k =>
        rw [List.getD_cons_succ]
        exact argminIdx_first (y :: ys) k (by omega)

/-! ### Characterization of `evaluate` -/

theorem evaluate_eq_some (classify : List ℚ → List ℚ → Bool) (evalView : List Sample)
    (classifiers selectors : List (List ℚ))
    (hlen : classifiers.length = selectors.length) (hne : classifiers ≠ []) :
    ∃ i, i < classifiers.length ∧
      evaluate classify evalView classifiers selectors =
        some (classifiers.getD i [], selectors.getD i []) ∧
      (∀ j, j < classifiers.length →
        conditional_error_rate classify evalView
            (classifiers.getD i []) (selectors.getD i []) ≤
          conditional_error_rate classify evalView
            (classifiers.getD j []) (selectors.getD j [])) ∧
      (∀ j, j < i →
        conditional_error_rate classify evalView
            (classifiers.getD i []) (selectors.getD i []) <
          conditional_error_rate classify evalView
            (classifiers.getD j []) (selectors.getD j [])) := by
  set rates :=
    List.zipWith (conditional_error_rate classify evalView) classifiers selectors with hrates
  have hrlen : rates.length = classifiers.length := by
    rw [hrates, List.length_zipWith, hlen, Nat.min_self]
  have hrne : rates ≠ [] := by
    intro hcon
    exact hne (List.eq_nil_of_length_eq_zero (by rw [← hrlen, hcon]; rfl))
  have hgetD : ∀ k, k < classifiers.length → rates.getD k 0 =
      conditional_error_rate classify evalView
        (classifiers.getD k []) (selectors.getD k []) := by
    intro k hk
    have hk2 : k < selectors.length := hlen ▸ hk
    have hkr : k < rates.length := hrlen ▸ hk
    rw [List.getD_eq_getElem _ 0 hkr, List.getD_eq_getElem _ [] hk,
      List.getD_eq_getElem _ [] hk2]
    exact List.getElem_zipWith
  refine ⟨argminIdx rates, by rw [← hrlen]; exact argminIdx_lt_length rates hrne, ?_, ?_, ?_⟩
  · rw [evaluate]
    simp only [← hrates, if_neg hrne]
  · intro j hj
    rw [← hgetD _ (by rw [← hrlen]; exact argminIdx_lt_length rates hrne), ← hgetD j hj]
    exact argminIdx_le rates j (hrlen ▸ hj)
  · intro j hj
    have hia : argminIdx rates < classifiers.length := by
      rw [← hrlen]; exact argminIdx_lt_length rates hrne
    rw [← hgetD _ hia, ← hgetD j (lt_trans hj hia)]
    exact argminIdx_first rates j hj

/-! ### Characterization of the split and the per-cluster result -/

theorem clusterSplit_eq_some (cfg : Config) (view : List Sample)
    (h : cfg.sample_size_psgd ≤ view.length) :
    clusterSplit cfg view =
      some (view.take cfg.sample_size_psgd, view.drop cfg.sample_size_psgd) := by
  rw [clusterSplit, random_split, if_pos (by omega)]

theorem clusterBest_spec (cfg : Config) (classify : List ℚ → List ℚ → Bool)
    (train : Nat → List SparseVec → List Sample × List Sample → List ℚ → List (List ℚ))
    (clusterView : Nat → List SparseVec → List Sample) (evalView : List Sample)
    (clusters : List (List SparseVec)) (i : Nat)
    (hi : i < clusters.length)
    (hcl : ∀ c ∈ clusters, c ≠ [])
    (hsp : cfg.sample_size_psgd ≤ (clusterView i (clusters.getD i [])).length)
    (htlen : ∀ k c p w, (train k c p w).length = c.length) :
    ∃ bc bs j split,
      clusterBest cfg classify train clusterView evalView clusters i = some (bc, bs) ∧
      j < (clusters.getD i []).length ∧
      clusterSplit cfg (clusterView i (clusters.getD i [])) = some split ∧
      bc = SparseVec.toDense cfg.dim_sample ((clusters.getD i []).getD j ⟨[]⟩) ∧
      bs = (train i (clusters.getD i []) split (initWeightUsed cfg i)).getD j [] := by
  have hcne : clusters.getD i [] ≠ [] := hcl _ (getD_mem clusters i [] hi)
  have hsplit := clusterSplit_eq_some cfg (clusterView i (clusters.getD i [])) hsp
  set c := clusters.getD i [] with hc
  set split := ((clusterView i c).take cfg.sample_size_psgd,
    (clusterView i c).drop cfg.sample_size_psgd) with hsplitdef
  have hdlen : (denseCluster cfg.dim_sample c).length = c.length := List.length_map c _
  have hdne : denseCluster cfg.dim_sample c ≠ [] := by
    intro hcon
    exact hcne (List.eq_nil_of_length_eq_zero (by rw [← hdlen, hcon]; rfl))
  obtain ⟨j, hj, heval, -, -⟩ := evaluate_eq_some classify evalView
    (denseCluster cfg.dim_sample c)
    (train i c split (initWeightUsed cfg i))
    (by rw [hdlen, htlen]) hdne
  have hjc : j < c.length := hdlen ▸ hj
  refine ⟨(denseCluster cfg.dim_sample c).getD j [],
    (train i c split (initWeightUsed cfg i)).getD j [], j, split, ?_, hjc, hsplit, ?_, rfl⟩
  · rw [clusterBest, ← hc, hsplit, Option.some_bind, heval]
  · rw [denseCluster, getD_map (SparseVec.toDense cfg.dim_sample) c j ⟨[]⟩ [] hjc]

/-! ### Specification of the main cluster loop -/

theorem mainPassAux (cfg : Config) (classify : List ℚ → List ℚ → Bool)
    (train : Nat → List SparseVec → List Sample × List Sample → List ℚ → List (List ℚ))
    (clusterView : Nat → List SparseVec → List Sample) (evalView : List Sample)
    (clusters : List (List SparseVec))
    (hcl : ∀ c ∈ clusters, c ≠ [])
    (hsp : ∀ i, i < clusters.length →
      cfg.sample_size_psgd ≤ (clusterView i (clusters.getD i [])).length)
    (htlen : ∀ k c p w, (train k c p w).length = c.length) :
    ∀ k, k ≤ clusters.length →
    ∃ tblC tblS,
      (List.range k).foldl
        (fun acc i => acc.bind (clusterStep cfg classify train clusterView evalView clusters i))
        (some (initTable cfg clusters)) = some (tblC, tblS) ∧
      tblC.length = clusters.length ∧ tblS.length = clusters.length ∧
      ∀ i, i < k → ∃ bc bs,
        clusterBest cfg classify train clusterView evalView clusters i = some (bc, bs) ∧
        tblC.getD i [] = bc ∧ tblS.getD i [] = bs := by
  intro k
  induction k with
  | zero =>
    intro _
    refine ⟨(initTable cfg clusters).1, (initTable cfg clusters).2, rfl, ?_, ?_, ?_⟩
    · exact List.length_replicate clusters.length _
    · exact List.length_replicate clusters.length _
    · intro i hi
      omega
  | succ k ih =>
    intro hk
    obtain ⟨tblC, tblS, hfold, hlen1, hlen2, hrows⟩ := ih (Nat.le_of_succ_le hk)
    have hkn : k < clusters.length := hk
    obtain ⟨bc, bs, j, split, hbest, -, -, -, -⟩ :=
      clusterBest_spec cfg classify train clusterView evalView clusters k hkn hcl
        (hsp k hkn) htlen
    refine ⟨tblC.set k bc, tblS.set k bs, ?_, ?_, ?_, ?_⟩
    · rw [List.range_succ, List.foldl_append, hfold]
      simp only [List.foldl_cons, List.foldl_nil, Option.some_bind, clusterStep, hbest]
      rfl
    · rw [List.length_set]; exact hlen1
    · rw [List.length_set]; exact hlen2
    · intro i hik
      rcases Nat.lt_succ_iff_lt_or_eq.mp hik with hik | rfl
      · obtain ⟨bc2, bs2, hb2, h1, h2⟩ := hrows i hik
        exact ⟨bc2, bs2, hb2,
          by rw [getD_set_of_ne tblC k i bc [] (by omega), h1],
          by rw [getD_set_of_ne tblS k i bs [] (by omega), h2]⟩
      · exact ⟨bc, bs, hbest,
          getD_set_self tblC i bc [] (by omega),
          getD_set_self tblS i bs [] (by omega)⟩

theorem mainPass_spec (cfg : Config) (classify : List ℚ → List ℚ → Bool)
    (train : Nat → List SparseVec → List Sample × List Sample → List ℚ → List (List ℚ))
    (clusterView : Nat → List SparseVec → List Sample) (evalView : List Sample)
    (clusters : List (List SparseVec))
    (hcl : ∀ c ∈ clusters, c ≠ [])
    (hsp : ∀ i, i < clusters.length →
      cfg.sample_size_psgd ≤ (clusterView i (clusters.getD i [])).length)
    (htlen : ∀ k c p w, (train k c p w).length = c.length) :
    ∃ tblC tblS,
      mainPass cfg classify train clusterView evalView clusters = some (tblC, tblS) ∧
      tblC.length = clusters.length ∧ tblS.length = clusters.length ∧
      ∀ i, i < clusters.length → ∃ bc bs,
        clusterBest cfg classify train clusterView evalView clusters i = some (bc, bs) ∧
        tblC.getD i [] = bc ∧ tblS.getD i [] = bs :=
  mainPassAux cfg classify train clusterView evalView clusters hcl hsp htlen
    clusters.length (Nat.le_refl _)

/-! ### Further small helpers -/

theorem toDense_length (dim : Nat) (v : SparseVec) :
    (SparseVec.toDense dim v).length = dim := by
  rw [SparseVec.toDense, List.length_map, List.length_range]

theorem getD_replicate {α : Type _} (n j : Nat) (a : α) :
    (List.replicate n a).getD j a = a := by
  by_cases hj : j < n
  · rw [List.getD_eq_getElem _ a (by simpa using hj)]
    simp
  · rw [List.getD_eq_getElem?_getD, List.getElem?_eq_none (by simpa using Nat.le_of_not_lt hj)]
    rfl

theorem rate_eq_one_of_no_selection (classify : List ℚ → List ℚ → Bool)
    (evalView : List Sample) (classifier selector : List ℚ)
    (h : selectionCount classify evalView selector = 0) :
    conditional_error_rate classify evalView classifier selector = 1 := by
  rw [conditional_error_rate]
  simp [h]

/-! ### The claims -/

/-- C1: in every call to `evaluate`, a row whose selector selects zero
samples of the evaluation view gets conditional error rate exactly 1: the
NaN produced by the `0/0` quotient on line 136 is replaced by 1 on
line 138 and no other undefined value can arise, so the subsequent
arg-min over rows is always well-defined. -/
theorem evaluate_zero_selected_rate_one (classify : List ℚ → List ℚ → Bool)
    (evalView : List Sample) (classifier selector : List ℚ)
    (h : selectionCount classify evalView selector = 0) :
    conditional_error_rate classify evalView classifier selector = 1 :=
  rate_eq_one_of_no_selection classify evalView classifier selector h

theorem evaluate_zero_selected_rate_one_witness :
    selectionCount exClassifyFalse exView [1] = 0 ∧
    conditional_error_rate exClassifyFalse exView [1] [1] = 1 :=
  ⟨by decide, evaluate_zero_selected_rate_one exClassifyFalse exView [1] [1] (by decide)⟩

/-- C2: in every call to `evaluate`, for each row whose selector selects
at least one sample, the conditional error rate equals the number of
evaluation samples both misclassified by the row's classifier (prediction
differs from the label) and selected by the row's selector, divided by
the number of samples the selector selects. -/
theorem conditional_error_rate_eq_ratio (classify : List ℚ → List ℚ → Bool)
    (evalView : List Sample) (classifier selector : List ℚ)
    (h : selectionCount classify evalView selector ≠ 0) :
    conditional_error_rate classify evalView classifier selector =
      (((evalView.filter fun s => classify selector s.features).filter
          fun s => classify classifier s.features != s.label).length : ℚ) /
        (selectionCount classify evalView selector : ℚ) := by
  rw [conditional_error_rate]
  simp only [if_neg h]
  rw [List.filter_filter]

theorem conditional_error_rate_eq_ratio_witness :
    selectionCount exClassifyTrue exView [1] ≠ 0 ∧
    conditional_error_rate exClassifyTrue exView [1] [1] =
      (((exView.filter fun s => exClassifyTrue [1] s.features).filter
          fun s => exClassifyTrue [1] s.features != s.label).length : ℚ) /
        (selectionCount exClassifyTrue exView [1] : ℚ) :=
  ⟨by decide, conditional_error_rate_eq_ratio exClassifyTrue exView [1] [1] (by decide)⟩

/-- C9: calling `forward` with an empty cluster list returns no
(classifier, selector) pair: the loop body never runs, and the single
final `evaluate` over the empty candidate table has no row to minimize
over, so the call aborts with the `torch.min` empty-reduction error,
embedded as `none`. -/
theorem forward_empty_clusters (cfg : Config) (classify : List ℚ → List ℚ → Bool)
    (train : Nat → List SparseVec → List Sample × List Sample → List ℚ → List (List ℚ))
    (clusterView : Nat → List SparseVec → List Sample) (evalView : List Sample) :
    forward cfg classify train clusterView evalView [] = none := rfl

/-- C10: the step size computed in the constructor satisfies
`lr_beta = lr_coeff * sqrt(1 / (num_iter * dim_sample))` for every
positive `num_iter` and `dim_sample`; equivalently it equals
`lr_coeff / sqrt(num_iter * dim_sample)`. -/
theorem lr_beta_formula (cfg : Config) (_hn : 0 < cfg.num_iter) (_hd : 0 < cfg.dim_sample) :
    lr_beta cfg =
      (cfg.lr_coeff : ℝ) * Real.sqrt (1 / ((cfg.num_iter : ℝ) * (cfg.dim_sample : ℝ))) ∧
    lr_beta cfg =
      (cfg.lr_coeff : ℝ) / Real.sqrt ((cfg.num_iter : ℝ) * (cfg.dim_sample : ℝ)) := by
  constructor
  · rfl
  · rw [lr_beta, one_div, Real.sqrt_inv, div_eq_mul_inv]

theorem lr_beta_formula_witness :
    0 < exCfg.num_iter ∧ 0 < exCfg.dim_sample ∧
    (lr_beta exCfg =
        (exCfg.lr_coeff : ℝ) * Real.sqrt (1 / ((exCfg.num_iter : ℝ) * (exCfg.dim_sample : ℝ))) ∧
      lr_beta exCfg =
        (exCfg.lr_coeff : ℝ) / Real.sqrt ((exCfg.num_iter : ℝ) * (exCfg.dim_sample : ℝ))) :=
  ⟨by decide, by decide, lr_beta_formula exCfg (by decide) (by decide)⟩

/-- C8: for every cluster view of length `L` with `sample_size_psgd ≤ L`,
the split `forward` performs yields a training split of exactly
`sample_size_psgd` samples and a validation split of exactly
`L - sample_size_psgd` samples; when `sample_size_psgd = L` the split
succeeds with an empty validation split rather than raising. -/
theorem forward_split_sizes (cfg : Config) (view : List Sample)
    (h : cfg.sample_size_psgd ≤ view.length) :
    ∃ t v, clusterSplit cfg view = some (t, v) ∧
      t.length = cfg.sample_size_psgd ∧
      v.length = view.length - cfg.sample_size_psgd ∧
      (cfg.sample_size_psgd = view.length → v = []) := by
  refine ⟨view.take cfg.sample_size_psgd, view.drop cfg.sample_size_psgd,
    clusterSplit_eq_some cfg view h, ?_, ?_, ?_⟩
  · rw [List.length_take]
    omega
  · rw [List.length_drop]
  · intro heq
    apply List.eq_nil_of_length_eq_zero
    rw [List.length_drop]
    omega

theorem forward_split_sizes_witness :
    exCfg.sample_size_psgd ≤ exView.length ∧
    ∃ t v, clusterSplit exCfg exView = some (t, v) ∧
      t.length = exCfg.sample_size_psgd ∧
      v.length = exView.length - exCfg.sample_size_psgd ∧
      (exCfg.sample_size_psgd = exView.length → v = []) :=
  ⟨by decide, forward_split_sizes exCfg exView (by decide)⟩

/-- C7: the weight vector seeding every SGD run is the fixed one-hot
vector of dimension `dim_sample` with value 1 at index 0 and 0 elsewhere,
and the loop body hands the identical stored vector to every cluster's
training run, so every cluster starts from the same deterministic seed
(the embedding is immutable, so the vector is never mutated). -/
theorem init_weight_one_hot (cfg : Config) (h : 0 < cfg.dim_sample) :
    (init_weight cfg.dim_sample).length = cfg.dim_sample ∧
    (init_weight cfg.dim_sample).getD 0 0 = 1 ∧
    (∀ j, 0 < j → (init_weight cfg.dim_sample).getD j 0 = 0) ∧
    (∀ i, initWeightUsed cfg i = init_weight cfg.dim_sample) := by
  refine ⟨?_, ?_, ?_, fun _ => rfl⟩
  · rw [init_weight, List.length_set, List.length_replicate]
  · exact getD_set_self _ 0 1 0 (by simpa using h)
  · intro j hj
    rw [init_weight, getD_set_of_ne _ _ _ _ _ (by omega), getD_replicate]

theorem init_weight_one_hot_witness :
    0 < exCfg.dim_sample ∧
    ((init_weight exCfg.dim_sample).length = exCfg.dim_sample ∧
      (init_weight exCfg.dim_sample).getD 0 0 = 1 ∧
      (∀ j, 0 < j → (init_weight exCfg.dim_sample).getD j 0 = 0) ∧
      (∀ i, initWeightUsed exCfg i = init_weight exCfg.dim_sample)) :=
  ⟨by decide, init_weight_one_hot exCfg (by decide)⟩

/-- C3: in every call to `evaluate` with at least one classifier row, the
returned pair is the classifier and selector of the row with minimum
conditional error rate, ties broken by the first occurrence in index
order (stable arg-min); in particular, when every row's selector selects
zero samples, every row's rate is 1 and row 0 is returned. -/
theorem evaluate_stable_argmin (classify : List ℚ → List ℚ → Bool) (evalView : List Sample)
    (classifiers selectors : List (List ℚ))
    (hlen : classifiers.length = selectors.length) (hne : classifiers ≠ []) :
    ∃ i, i < classifiers.length ∧
      evaluate classify evalView classifiers selectors =
        some (classifiers.getD i [], selectors.getD i []) ∧
      (∀ j, j < classifiers.length →
        conditional_error_rate classify evalView
            (classifiers.getD i []) (selectors.getD i []) ≤
          conditional_error_rate classify evalView
            (classifiers.getD j []) (selectors.getD j [])) ∧
      (∀ j, j < i →
        conditional_error_rate classify evalView
            (classifiers.getD i []) (selectors.getD i []) <
          conditional_error_rate classify evalView
            (classifiers.getD j []) (selectors.getD j [])) ∧
      ((∀ s ∈ selectors, selectionCount classify evalView s = 0) →
        (∀ j, j < classifiers.length →
          conditional_error_rate classify evalView
            (classifiers.getD j []) (selectors.getD j []) = 1) ∧
        i = 0) := by
  obtain ⟨i, hi, heval, hmin, hstab⟩ :=
    evaluate_eq_some classify evalView classifiers selectors hlen hne
  refine ⟨i, hi, heval, hmin, hstab, ?_⟩
  intro hz
  have hone : ∀ j, j < classifiers.length →
      conditional_error_rate classify evalView
        (classifiers.getD j []) (selectors.getD j []) = 1 := by
    intro j hj
    exact rate_eq_one_of_no_selection _ _ _ _
      (hz _ (getD_mem selectors j [] (hlen ▸ hj)))
  refine ⟨hone, ?_⟩
  by_contra hi0
  have h0 : 0 < i := Nat.pos_of_ne_zero hi0
  have hlt := hstab 0 h0
  rw [hone i hi, hone 0 (lt_of_le_of_lt (Nat.zero_le _) hi)] at hlt
  exact lt_irrefl 1 hlt

theorem evaluate_stable_argmin_witness :
    exRows.length = exRows.length ∧ exRows ≠ [] ∧
    (∃ i, i < exRows.length ∧
      evaluate exClassifyTrue exView exRows exRows =
        some (exRows.getD i [], exRows.getD i []) ∧
      (∀ j, j < exRows.length →
        conditional_error_rate exClassifyTrue exView
            (exRows.getD i []) (exRows.getD i []) ≤
          conditional_error_rate exClassifyTrue exView
            (exRows.getD j []) (exRows.getD j [])) ∧
      (∀ j, j < i →
        conditional_error_rate exClassifyTrue exView
            (exRows.getD i []) (exRows.getD i []) <
          conditional_error_rate exClassifyTrue exView
            (exRows.getD j []) (exRows.getD j [])) ∧
      ((∀ s ∈ exRows, selectionCount exClassifyTrue exView s = 0) →
        (∀ j, j < exRows.length →
          conditional_error_rate exClassifyTrue exView
            (exRows.getD j []) (exRows.getD j []) = 1) ∧
        i = 0)) :=
  ⟨rfl, by decide, evaluate_stable_argmin exClassifyTrue exView exRows exRows rfl (by decide)⟩

/-- C4: for every nonempty cluster list, `forward` processes the clusters
in input order, stores each cluster's best (classifier, selector) pair in
the candidate table, makes exactly one final `evaluate` call over the
entire candidate table — one candidate per cluster — and returns that
call's result: a pair of vectors, each of dimension `dim_sample`. -/
theorem forward_final_evaluate (cfg : Config) (classify : List ℚ → List ℚ → Bool)
    (train : Nat → List SparseVec → List Sample × List Sample → List ℚ → List (List ℚ))
    (clusterView : Nat → List SparseVec → List Sample) (evalView : List Sample)
    (clusters : List (List SparseVec))
    (hne : clusters ≠ [])
    (hcl : ∀ c ∈ clusters, c ≠ [])
    (hsp : ∀ i, i < clusters.length →
      cfg.sample_size_psgd ≤ (clusterView i (clusters.getD i [])).length)
    (htlen : ∀ k c p w, (train k c p w).length = c.length)
    (htdim : ∀ k c p w r, r ∈ train k c p w → r.length = cfg.dim_sample) :
    ∃ tblC tblS,
      mainPass cfg classify train clusterView evalView clusters = some (tblC, tblS) ∧
      tblC.length = clusters.length ∧ tblS.length = clusters.length ∧
      (∀ i, i < clusters.length → ∃ bc bs,
        clusterBest cfg classify train clusterView evalView clusters i = some (bc, bs) ∧
        tblC.getD i [] = bc ∧ tblS.getD i [] = bs) ∧
      forward cfg classify train clusterView evalView clusters =
        evaluate classify evalView tblC tblS ∧
      ∃ fc fs, forward cfg classify train clusterView evalView clusters = some (fc, fs) ∧
        fc.length = cfg.dim_sample ∧ fs.length = cfg.dim_sample := by
  obtain ⟨tblC, tblS, hmp, hlen1, hlen2, hrows⟩ :=
    mainPass_spec cfg classify train clusterView evalView clusters hcl hsp htlen
  have hfw : forward cfg classify train clusterView evalView clusters =
      evaluate classify evalView tblC tblS := by
    rw [forward, hmp, Option.some_bind]
  have htne : tblC ≠ [] := by
    intro hcon
    apply hne
    apply List.eq_nil_of_length_eq_zero
    rw [← hlen1, hcon]
    rfl
  obtain ⟨k, hk, heval, -, -⟩ :=
    evaluate_eq_some classify evalView tblC tblS (by rw [hlen1, hlen2]) htne
  have hkc : k < clusters.length := hlen1 ▸ hk
  obtain ⟨bc, bs, hbest, hrc, hrs⟩ := hrows k hkc
  obtain ⟨bc2, bs2, j, split, hbest2, hj, hsplit, hbc2, hbs2⟩ :=
    clusterBest_spec cfg classify train clusterView evalView clusters k hkc hcl
      (hsp k hkc) htlen
  have hpair : (bc, bs) = (bc2, bs2) := Option.some.inj (hbest.symm.trans hbest2)
  have hbc : bc = bc2 := congrArg Prod.fst hpair
  have hbs : bs = bs2 := congrArg Prod.snd hpair
  refine ⟨tblC, tblS, hmp, hlen1, hlen2, hrows, hfw, tblC.getD k [], tblS.getD k [],
    hfw.trans heval, ?_, ?_⟩
  · rw [hrc, hbc, hbc2, toDense_length]
  · rw [hrs, hbs, hbs2]
    have hjt : j < (train k (clusters.getD k []) split (initWeightUsed cfg k)).length := by
      rw [htlen]
      exact hj
    exact htdim _ _ _ _ _ (getD_mem _ j [] hjt)

theorem forward_final_evaluate_witness :
    ∃ tblC tblS,
      mainPass exCfg exClassifyTrue exTrain exClusterView exView [exCluster] =
        some (tblC, tblS) ∧
      tblC.length = ([exCluster] : List (List SparseVec)).length ∧
      tblS.length = ([exCluster] : List (List SparseVec)).length ∧
      (∀ i, i < ([exCluster] : List (List SparseVec)).length → ∃ bc bs,
        clusterBest exCfg exClassifyTrue exTrain exClusterView exView [exCluster] i =
          some (bc, bs) ∧
        tblC.getD i [] = bc ∧ tblS.getD i [] = bs) ∧
      forward exCfg exClassifyTrue exTrain exClusterView exView [exCluster] =
        evaluate exClassifyTrue exView tblC tblS ∧
      ∃ fc fs, forward exCfg exClassifyTrue exTrain exClusterView exView [exCluster] =
        some (fc, fs) ∧
        fc.length = exCfg.dim_sample ∧ fs.length = exCfg.dim_sample :=
  forward_final_evaluate exCfg exClassifyTrue exTrain exClusterView exView [exCluster]
    (by decide) (by decide)
    (fun i _ => Nat.le_refl 1)
    (fun k c p w => List.length_map c _)
    (by
      intro k c p w r hr
      simp only [exTrain, List.mem_map] at hr
      obtain ⟨a, -, rfl⟩ := hr
      rfl)

/-- C5: for every nonempty cluster list, the pair returned by `forward`
originates from its inputs: the returned classifier is the dense form of
classifier row `j` of some input cluster `k`, and the returned selector
is the trained selector row with the same within-cluster index `j` from
that same cluster `k` — `forward` never fabricates a classifier and never
pairs a classifier with another cluster's selector. -/
theorem forward_provenance (cfg : Config) (classify : List ℚ → List ℚ → Bool)
    (train : Nat → List SparseVec → List Sample × List Sample → List ℚ → List (List ℚ))
    (clusterView : Nat → List SparseVec → List Sample) (evalView : List Sample)
    (clusters : List (List SparseVec))
    (hne : clusters ≠ [])
    (hcl : ∀ c ∈ clusters, c ≠ [])
    (hsp : ∀ i, i < clusters.length →
      cfg.sample_size_psgd ≤ (clusterView i (clusters.getD i [])).length)
    (htlen : ∀ k c p w, (train k c p w).length = c.length) :
    ∃ k j split, k < clusters.length ∧ j < (clusters.getD k []).length ∧
      clusterSplit cfg (clusterView k (clusters.getD k [])) = some split ∧
      forward cfg classify train clusterView evalView clusters =
        some (SparseVec.toDense cfg.dim_sample ((clusters.getD k []).getD j ⟨[]⟩),
          (train k (clusters.getD k []) split (initWeightUsed cfg k)).getD j []) := by
  obtain ⟨tblC, tblS, hmp, hlen1, hlen2, hrows⟩ :=
    mainPass_spec cfg classify train clusterView evalView clusters hcl hsp htlen
  have hfw : forward cfg classify train clusterView evalView clusters =
      evaluate classify evalView tblC tblS := by
    rw [forward, hmp, Option.some_bind]
  have htne : tblC ≠ [] := by
    intro hcon
    apply hne
    apply List.eq_nil_of_length_eq_zero
    rw [← hlen1, hcon]
    rfl
  obtain ⟨k, hk, heval, -, -⟩ :=
    evaluate_eq_some classify evalView tblC tblS (by rw [hlen1, hlen2]) htne
  have hkc : k < clusters.length := hlen1 ▸ hk
  obtain ⟨bc, bs, hbest, hrc, hrs⟩ := hrows k hkc
  obtain ⟨bc2, bs2, j, split, hbest2, hj, hsplit, hbc2, hbs2⟩ :=
    clusterBest_spec cfg classify train clusterView evalView clusters k hkc hcl
      (hsp k hkc) htlen
  have hpair : (bc, bs) = (bc2, bs2) := Option.some.inj (hbest.symm.trans hbest2)
  have hbc : bc = bc2 := congrArg Prod.fst hpair
  have hbs : bs = bs2 := congrArg Prod.snd hpair
  refine ⟨k, j, split, hkc, hj, hsplit, ?_⟩
  rw [hfw.trans heval, hrc, hrs, hbc, hbs, hbc2, hbs2]

theorem forward_provenance_witness :
    ∃ k j split, k < ([exCluster] : List (List SparseVec)).length ∧
      j < (([exCluster] : List (List SparseVec)).getD k []).length ∧
      clusterSplit exCfg
        (exClusterView k (([exCluster] : List (List SparseVec)).getD k [])) = some split ∧
      forward exCfg exClassifyTrue exTrain exClusterView exView [exCluster] =
        some (SparseVec.toDense exCfg.dim_sample
            ((([exCluster] : List (List SparseVec)).getD k []).getD j ⟨[]⟩),
          (exTrain k (([exCluster] : List (List SparseVec)).getD k []) split
            (initWeightUsed exCfg k)).getD j []) :=
  forward_provenance exCfg exClassifyTrue exTrain exClusterView exView [exCluster]
    (by decide) (by decide)
    (fun i _ => Nat.le_refl 1)
    (fun k c p w => List.length_map c _)

/-- C6: during iteration `i` of `forward`'s cluster loop, exactly row `i`
of the candidate classifier table and row `i` of the candidate selector
table are written — every other row of both tables is unchanged — and in
the completed main pass every row `k` holds exactly cluster `k`'s best
pair, so each row is mutated exactly once and cluster `i`'s result always
lands in row `i`. -/
theorem clusterStep_frame (cfg : Config) (classify : List ℚ → List ℚ → Bool)
    (train : Nat → List SparseVec → List Sample × List Sample → List ℚ → List (List ℚ))
    (clusterView : Nat → List SparseVec → List Sample) (evalView : List Sample)
    (clusters : List (List SparseVec)) (i : Nat) (tbl : List (List ℚ) × List (List ℚ))
    (hi : i < clusters.length)
    (hcl : ∀ c ∈ clusters, c ≠ [])
    (hsp : ∀ k, k < clusters.length →
      cfg.sample_size_psgd ≤ (clusterView k (clusters.getD k [])).length)
    (htlen : ∀ k c p w, (train k c p w).length = c.length)
    (hlen1 : tbl.1.length = clusters.length) (hlen2 : tbl.2.length = clusters.length) :
    ∃ tbl2 bc bs,
      clusterStep cfg classify train clusterView evalView clusters i tbl = some tbl2 ∧
      clusterBest cfg classify train clusterView evalView clusters i = some (bc, bs) ∧
      tbl2.1.getD i [] = bc ∧ tbl2.2.getD i [] = bs ∧
      (∀ j, j ≠ i → tbl2.1.getD j [] = tbl.1.getD j [] ∧
        tbl2.2.getD j [] = tbl.2.getD j []) ∧
      (∀ ftblC ftblS,
        mainPass cfg classify train clusterView evalView clusters = some (ftblC, ftblS) →
        ∀ k, k < clusters.length → ∃ fbc fbs,
          clusterBest cfg classify train clusterView evalView clusters k = some (fbc, fbs) ∧
          ftblC.getD k [] = fbc ∧ ftblS.getD k [] = fbs) := by
  obtain ⟨bc, bs, j, split, hbest, -, -, -, -⟩ :=
    clusterBest_spec cfg classify train clusterView evalView clusters i hi hcl
      (hsp i hi) htlen
  refine ⟨(tbl.1.set i bc, tbl.2.set i bs), bc, bs, ?_, hbest, ?_, ?_, ?_, ?_⟩
  · rw [clusterStep, hbest]
    rfl
  · exact getD_set_self tbl.1 i bc [] (by omega)
  · exact getD_set_self tbl.2 i bs [] (by omega)
  · intro j hji
    exact ⟨getD_set_of_ne tbl.1 i j bc [] hji, getD_set_of_ne tbl.2 i j bs [] hji⟩
  · intro ftblC ftblS hfmp k hk
    obtain ⟨tblC, tblS, hmp, hl1, hl2, hrows⟩ :=
      mainPass_spec cfg classify train clusterView evalView clusters hcl hsp htlen
    rw [hmp] at hfmp
    have h1 : tblC = ftblC := congrArg Prod.fst (Option.some.inj hfmp)
    have h2 : tblS = ftblS := congrArg Prod.snd (Option.some.inj hfmp)
    rw [← h1, ← h2]
    exact hrows k hk

theorem clusterStep_frame_witness :
    ∃ tbl2 bc bs,
      clusterStep exCfg exClassifyTrue exTrain exClusterView exView [exCluster] 0
        ([[0]], [[0]]) = some tbl2 ∧
      clusterBest exCfg exClassifyTrue exTrain exClusterView exView [exCluster] 0 =
        some (bc, bs) ∧
      tbl2.1.getD 0 [] = bc ∧ tbl2.2.getD 0 [] = bs ∧
      (∀ j, j ≠ 0 → tbl2.1.getD j [] = (([[0]], [[0]]) :
          List (List ℚ) × List (List ℚ)).1.getD j [] ∧
        tbl2.2.getD j [] = (([[0]], [[0]]) : List (List ℚ) × List (List ℚ)).2.getD j []) ∧
      (∀ ftblC ftblS,
        mainPass exCfg exClassifyTrue exTrain exClusterView exView [exCluster] =
          some (ftblC, ftblS) →
        ∀ k, k < ([exCluster] : List (List SparseVec)).length → ∃ fbc fbs,
          clusterBest exCfg exClassifyTrue exTrain exClusterView exView [exCluster] k =
            some (fbc, fbs) ∧
          ftblC.getD k [] = fbc ∧ ftblS.getD k [] = fbs) :=
  clusterStep_frame exCfg exClassifyTrue exTrain exClusterView exView [exCluster] 0
    ([[0]], [[0]]) (by decide) (by decide)
    (fun k _ => Nat.le_refl 1)
    (fun k c p w => List.length_map c _)
    rfl rfl

end CondLearn
